import Mathlib

/-!
  # Ticket-resale marketplace backend: ledger and identity model

  A shallow embedding of the in-memory backend (`baked.py`): the global
  collections `users_db`, `tickets_db` and `pending_verifications`, and the
  route handlers `register`, `login`, `create_ticket`, `verify_ticket`,
  `get_tickets`, `get_pending_verifications`, `purchase_ticket` and
  `get_stats`. Mutation is modelled by explicit state passing over
  `AppState`; the handlers' `HTTPException`s become `Except ApiError`.

  External effects are threaded as explicit inputs: each call site of
  `uuid.uuid4().hex[:8].upper()` becomes a `hex : String` argument (an
  eight-character uppercase-hex string supplied by the environment), each
  `datetime.utcnow().isoformat()` a `now : String` argument, each
  `uuid.uuid4()` user id a `uuid : String` argument, and the SHA-256
  `hash_password` digest an arbitrary function parameter
  `hp : String → String` (the hashing primitive is an external
  collaborator; only its use as an equality check is modelled).

  The Python lists alias the same ticket dicts from `tickets_db` and
  `pending_verifications`; here both lists hold ticket values. The models
  agree observably: the only field mutation in the source is
  `verify_ticket`'s write to the first ledger ticket with the decided id,
  and that same operation filters every ticket with that id out of the
  pending list, so a mutated dict is never visible through the pending
  list.
-/

namespace Quipd

/-- A ticket record as stored in `tickets_db`: the client-supplied listing
fields of the `Ticket` pydantic model plus the fields `create_ticket`
stamps on (`id`, `qr_code`, `verified`, `created_at`) and the field
`verify_ticket` stamps on (`verification_date`). Prices are stored
opaquely; no handler computes with them. -/
structure Ticket where
  name : String
  event_date : String
  venue : String
  original_price : Int
  resale_price : Int
  seller_email : String
  qr_code : String
  id : Nat
  verified : Bool
  verification_date : Option String
  created_at : String
deriving DecidableEq

/-- The client-supplied body of `POST /api/tickets` (the `Ticket` pydantic
model without the server-assigned fields; a client-supplied `qr_code` is
overwritten by the handler and so not modelled). -/
structure TicketInput where
  name : String
  event_date : String
  venue : String
  original_price : Int
  resale_price : Int
  seller_email : String
deriving DecidableEq

/-- A user record as stored in `users_db` (the `password` field holds the
hash, never the raw value). -/
structure UserRec where
  email : String
  full_name : String
  phone : String
  password : String
  role : String
  id : String
deriving DecidableEq

/-- The three module-level collections. `users_db` is a dict keyed by
email; since `register` never overwrites an existing key, an
insertion-ordered association list with first-match lookup is faithful. -/
structure AppState where
  users_db : List (String × UserRec)
  tickets_db : List Ticket
  pending_verifications : List Ticket
deriving DecidableEq

/-- The empty collections at process start. -/
def initState : AppState := ⟨[], [], []⟩

/-- The discrete error kinds raised by the handlers (as `HTTPException`s
with status 400, 401, 404, 404 respectively). -/
inductive ApiError where
  | duplicateEmail
  | invalidCredentials
  | ticketNotFound
  | notFoundOrUnverified
deriving DecidableEq

/-- `users_db.get(email)`: first-match lookup in the association list. -/
def lookupUser (db : List (String × UserRec)) (email : String) : Option UserRec :=
  (db.find? (fun p => p.1 == email)).map (fun p => p.2)

/-- `POST /api/register`: fail with `duplicateEmail` if the email is
already a key of `users_db`, else store the record (with hashed password
and environment-supplied uuid) and return the new state. -/
def register (hp : String → String) (s : AppState) (email full_name phone password role uuid : String) :
    Except ApiError AppState :=
  if (lookupUser s.users_db email).isSome then
    .error .duplicateEmail
  else
    .ok { s with users_db :=
      s.users_db ++ [(email, ⟨email, full_name, phone, hp password, role, uuid⟩)] }

/-- `POST /api/login`: fail with `invalidCredentials` if the email is
absent or the stored hash differs from the hash of the supplied password;
on success return the stored user record (the handler reads `users_db` and
mutates nothing). -/
def login (hp : String → String) (s : AppState) (email password : String) :
    Except ApiError UserRec :=
  match lookupUser s.users_db email with
  | none => .error .invalidCredentials
  | some u => if u.password == hp password then .ok u else .error .invalidCredentials

/-- `POST /api/tickets`: build the ticket dict with
`id = len(tickets_db) + 1`, `qr_code = "QR-" + hex`, `verified = False`,
`created_at = now`, and append it to both `tickets_db` and
`pending_verifications`. Returns the new state and the created ticket. -/
def create_ticket (s : AppState) (inp : TicketInput) (hex now : String) : AppState × Ticket :=
  let t : Ticket :=
    { name := inp.name
      event_date := inp.event_date
      venue := inp.venue
      original_price := inp.original_price
      resale_price := inp.resale_price
      seller_email := inp.seller_email
      qr_code := "QR-" ++ hex
      id := s.tickets_db.length + 1
      verified := false
      verification_date := none
      created_at := now }
  ({ s with tickets_db := s.tickets_db ++ [t]
            pending_verifications := s.pending_verifications ++ [t] }, t)

/-- Replace the first element satisfying `p` by its image under `f`
(the model of mutating the dict that `next(...)` found). -/
def updateFirst {α : Type} (l : List α) (p : α → Bool) (f : α → α) : List α :=
  match l with
  | [] => []
  | x :: xs => if p x then f x :: xs else x :: updateFirst xs p f

/-- `POST /api/tickets/{ticket_id}/verify`: fail with `ticketNotFound` if
no ledger ticket has the id; otherwise set the found (first-matching)
ticket's `verified` to `status == "verified"`, stamp its
`verification_date`, and rebuild `pending_verifications` keeping only
tickets with a different id. -/
def verify_ticket (s : AppState) (ticket_id : Nat) (status now : String) :
    Except ApiError AppState :=
  match s.tickets_db.find? (fun t => t.id == ticket_id) with
  | none => .error .ticketNotFound
  | some _ =>
    .ok { s with
      tickets_db := updateFirst s.tickets_db (fun t => t.id == ticket_id)
        (fun t => { t with verified := status == "verified", verification_date := some now })
      pending_verifications :=
        s.pending_verifications.filter (fun t => t.id != ticket_id) }

/-- `GET /api/tickets`: the ledger tickets with `verified` true, in ledger
order. -/
def get_tickets (s : AppState) : List Ticket :=
  s.tickets_db.filter (fun t => t.verified)

/-- `GET /api/pending-verifications`: the pending list as is. -/
def get_pending_verifications (s : AppState) : List Ticket :=
  s.pending_verifications

/-- `POST /api/tickets/{ticket_id}/purchase`: fail with
`notFoundOrUnverified` if no ledger ticket has the id with `verified`
true; otherwise remove the found ticket from `tickets_db`
(`list.remove`: erase the first equal element) and return the new state,
the removed ticket, and the fresh `"SECURE-QR-" + hex` code. The pending
list is not touched. -/
def purchase_ticket (s : AppState) (ticket_id : Nat) (hex : String) :
    Except ApiError (AppState × Ticket × String) :=
  match s.tickets_db.find? (fun t => t.id == ticket_id && t.verified) with
  | none => .error .notFoundOrUnverified
  | some t =>
    .ok ({ s with tickets_db := s.tickets_db.erase t }, t, "SECURE-QR-" ++ hex)

/-- `GET /api/stats`: `(total_tickets, verified_tickets,
pending_verifications, total_users)`, computed on demand. -/
def get_stats (s : AppState) : Nat × Nat × Nat × Nat :=
  (s.tickets_db.length,
   (s.tickets_db.filter (fun t => t.verified)).length,
   s.pending_verifications.length,
   s.users_db.length)

/-- One API request, with its environment-supplied inputs (fresh hex
strings, timestamps, uuids) baked in. -/
inductive Op where
  | createOp (inp : TicketInput) (hex now : String)
  | verifyOp (ticket_id : Nat) (status now : String)
  | purchaseOp (ticket_id : Nat) (hex : String)
  | registerOp (email full_name phone password role uuid : String)
  | loginOp (email password : String)

/-- The state after serving one request: a failing handler raises before
any mutation, so it leaves the state unchanged; `get_*` handlers and
`login` never mutate. -/
def step (hp : String → String) (s : AppState) : Op → AppState
  | .createOp inp hex now => (create_ticket s inp hex now).1
  | .verifyOp tid status now =>
    match verify_ticket s tid status now with
    | .ok s' => s'
    | .error _ => s
  | .purchaseOp tid hex =>
    match purchase_ticket s tid hex with
    | .ok r => r.1
    | .error _ => s
  | .registerOp e f p pw r u =>
    match register hp s e f p pw r u with
    | .ok s' => s'
    | .error _ => s
  | .loginOp _ _ => s

/-- Serve a sequence of requests. -/
def run (hp : String → String) (s : AppState) : List Op → AppState
  | [] => s
  | op :: ops => run hp (step hp s op) ops

/-- A state the process can be in after some request sequence. -/
def Reachable (hp : String → String) (s : AppState) : Prop :=
  ∃ ops : List Op, run hp initState ops = s

/-- An uppercase hexadecimal digit, as produced by
`uuid.uuid4().hex[:8].upper()`. -/
def isUpperHexDigit (c : Char) : Bool :=
  "0123456789ABCDEF".data.contains c

/-- A well-formed environment-supplied hex string: exactly eight uppercase
hexadecimal characters. -/
def HexOK (h : String) : Bool :=
  h.length == 8 && h.data.all isUpperHexDigit

/-- An operation whose environment-supplied hex inputs are well formed
(`uuid.uuid4().hex[:8].upper()` always is). -/
def WFOp : Op → Bool
  | .createOp _ hex _ => HexOK hex
  | .purchaseOp _ hex => HexOK hex
  | _ => true

/-- A state reachable by requests whose environment-supplied hex inputs
are all well formed. -/
def ReachableWF (hp : String → String) (s : AppState) : Prop :=
  ∃ ops : List Op, (∀ op ∈ ops, WFOp op = true) ∧ run hp initState ops = s

/-- Whether an operation is a `decide` (verify request) targeting ticket
id `k`. -/
def Op.decidesId (o : Op) (k : Nat) : Bool :=
  match o with
  | .verifyOp tid _ _ => tid == k
  | _ => false

/-- Among ledger tickets sharing an id, only the first can be verified:
every later ticket with the same id is unverified. -/
def IdOnceVerified (l : List Ticket) : Prop :=
  l.Pairwise (fun a b => a.id = b.id → b.verified = false)

/-- The structural facts every reachable state satisfies: the
`IdOnceVerified` ordering of the ledger, and that pending tickets are
undecided (unverified, no verification date) values still present in the
ledger. -/
def LedgerInv (s : AppState) : Prop :=
  IdOnceVerified s.tickets_db ∧
  (∀ t ∈ s.pending_verifications, t.verified = false ∧ t.verification_date = none) ∧
  (∀ t ∈ s.pending_verifications, t ∈ s.tickets_db)

/-- Every ledger ticket's listing QR code has the creation shape
`"QR-"` + eight uppercase hex characters. -/
def QRInv (s : AppState) : Prop :=
  ∀ t ∈ s.tickets_db, ∃ h, HexOK h = true ∧ t.qr_code = "QR-" ++ h

/-- No ledger ticket with id `k` is verified. -/
def NoVerId (k : Nat) (s : AppState) : Prop :=
  ∀ t ∈ s.tickets_db, t.id = k → t.verified = false

/-- Identity stand-in for the hash-function parameter in concrete runs
(the theorems below hold for every `hp`). -/
def hpId : String → String := fun p => p

/-- Sample listing input. -/
def inpA : TicketInput := ⟨"Concert A", "2025-12-01", "Arena", 100, 80, "s@x.com"⟩

/-- Sample listing input. -/
def inpB : TicketInput := ⟨"Concert B", "2025-12-02", "Arena", 120, 90, "s@x.com"⟩

/-- Sample listing input. -/
def inpC : TicketInput := ⟨"Concert C", "2025-12-03", "Arena", 50, 40, "t@x.com"⟩

/-- Request trace: two listings; the first is verified and purchased;
a third listing is then created, and `len(tickets_db) + 1` hands it id 2,
colliding with the still-present second listing. -/
def traceCollide : List Op :=
  [.createOp inpA "0A1B2C3D" "2025-01-01T00:00:00",
   .createOp inpB "1A1B2C3D" "2025-01-01T00:01:00",
   .verifyOp 1 "verified" "2025-01-01T00:02:00",
   .purchaseOp 1 "2A1B2C3D",
   .createOp inpC "3A1B2C3D" "2025-01-01T00:03:00"]

/-- Request trace: one listing, rejected, then decided again as
verified. -/
def traceRevive : List Op :=
  [.createOp inpA "0A1B2C3D" "T0",
   .verifyOp 1 "rejected" "T1",
   .verifyOp 1 "verified" "T2"]

/-- Request trace: two listings, both verified; the first is purchased;
a third listing is created and receives the second's id 2 (entering the
pending queue under it). -/
def traceReuse : List Op :=
  [.createOp inpA "0A1B2C3D" "T0",
   .createOp inpB "1A1B2C3D" "T1",
   .verifyOp 2 "verified" "T2",
   .verifyOp 1 "verified" "T3",
   .purchaseOp 1 "2A1B2C3D",
   .createOp inpC "3A1B2C3D" "T5"]

/-- Request trace: two listings; the first verified and purchased; a third
listing reuses id 2; deciding id 2 then verifies the second listing but
also drops the undecided third listing from the pending queue. -/
def traceDrop : List Op :=
  [.createOp inpA "0A1B2C3D" "T0",
   .createOp inpB "1A1B2C3D" "T1",
   .verifyOp 1 "verified" "T2",
   .purchaseOp 1 "2A1B2C3D",
   .createOp inpC "3A1B2C3D" "T4",
   .verifyOp 2 "verified" "T5"]

/-! ## Generic list helpers -/

/-- Serving a concatenation of request sequences is serving them in
turn. -/
theorem run_append (hp : String → String) (s : AppState) (l1 l2 : List Op) :
    run hp s (l1 ++ l2) = run hp (run hp s l1) l2 := by
  induction l1 generalizing s with
  | nil => rfl
  | cons op ops ih => exact ih (step hp s op)

/-- A successful `find?` splits the list at the found element, with no
earlier element satisfying the predicate. -/
theorem find?_decomp {α : Type} {p : α → Bool} {l : List α} {x : α}
    (h : l.find? p = some x) :
    ∃ l1 l2, l = l1 ++ x :: l2 ∧ ∀ y ∈ l1, p y = false := by
  induction l with
  | nil => simp [List.find?] at h
  | cons a as ih =>
    by_cases hpa : p a = true
    · rw [List.find?_cons_of_pos _ hpa] at h
      obtain rfl : a = x := by injection h
      exact ⟨[], as, rfl, by simp⟩
    · rw [List.find?_cons_of_neg _ hpa] at h
      obtain ⟨l1, l2, rfl, hl1⟩ := ih h
      refine ⟨a :: l1, l2, rfl, ?_⟩
      intro y hy
      rcases List.mem_cons.1 hy with rfl | hy
      · exact Bool.eq_false_iff.2 hpa
      · exact hl1 y hy

/-- `updateFirst` on a list split at its first match rewrites exactly the
split point. -/
theorem updateFirst_decomp {α : Type} {p : α → Bool} (f : α → α) {l1 : List α} (x : α)
    (l2 : List α) (h1 : ∀ y ∈ l1, p y = false) (hx : p x = true) :
    updateFirst (l1 ++ x :: l2) p f = l1 ++ f x :: l2 := by
  induction l1 with
  | nil => simp [updateFirst, hx]
  | cons a as ih =>
    have ha : p a = false := h1 a (by simp)
    simp only [List.cons_append, updateFirst, ha]
    simp only [Bool.false_eq_true, if_false, List.cons.injEq, true_and]
    exact ih (fun y hy => h1 y (by simp [hy]))

/-- Erasing an element absent from the left part of a split removes
exactly the split point. -/
theorem erase_decomp {α : Type} [DecidableEq α] {l1 : List α} {x : α} (l2 : List α)
    (h1 : x ∉ l1) : (l1 ++ x :: l2).erase x = l1 ++ l2 := by
  rw [List.erase_append_right _ h1, List.erase_cons_head]

/-! ## Handler characterizations -/

/-- `verify_ticket` fails (necessarily with `ticketNotFound`) exactly when
no ledger ticket carries the requested id. -/
theorem verify_ticket_error_iff (s : AppState) (tid : Nat) (status now : String) :
    verify_ticket s tid status now = .error .ticketNotFound ↔
      ∀ t ∈ s.tickets_db, t.id ≠ tid := by
  unfold verify_ticket
  cases hf : s.tickets_db.find? (fun t => t.id == tid) with
  | none =>
    rw [List.find?_eq_none] at hf
    refine iff_of_true rfl ?_
    intro t ht
    exact fun he => hf t ht (by simp [he])
  | some x =>
    have hx : x.id = tid := by simpa using List.find?_some hf
    have hmem : x ∈ s.tickets_db := List.mem_of_find?_eq_some hf
    refine iff_of_false (by simp) ?_
    intro hcontra
    exact (hcontra x hmem) hx

/-- A successful `verify_ticket` call, split at the decided (first
matching) ticket: that ticket gets `verified = (status == "verified")`
and a stamped `verification_date`, every pending ticket with the decided
id is dropped, and nothing else changes. -/
theorem verify_ticket_ok_decomp {s : AppState} {tid : Nat} {status now : String}
    {s' : AppState} (h : verify_ticket s tid status now = .ok s') :
    ∃ l1 x l2, s.tickets_db = l1 ++ x :: l2 ∧ (∀ y ∈ l1, y.id ≠ tid) ∧ x.id = tid ∧
      s'.tickets_db =
        l1 ++ { x with verified := (status == "verified"),
                       verification_date := some now } :: l2 ∧
      s'.pending_verifications =
        s.pending_verifications.filter (fun t => t.id != tid) ∧
      s'.users_db = s.users_db := by
  unfold verify_ticket at h
  cases hf : s.tickets_db.find? (fun t => t.id == tid) with
  | none => rw [hf] at h; cases h
  | some x =>
    rw [hf] at h
    have hok : s' = { s with
        tickets_db := updateFirst s.tickets_db (fun t => t.id == tid)
          (fun t => { t with verified := status == "verified",
                             verification_date := some now })
        pending_verifications :=
          s.pending_verifications.filter (fun t => t.id != tid) } := by
      injection h with h
      exact h.symm
    obtain ⟨l1, l2, hdecomp, hl1⟩ := find?_decomp hf
    have hx : x.id = tid := by simpa using List.find?_some hf
    refine ⟨l1, x, l2, hdecomp, ?_, hx, ?_, ?_, ?_⟩
    · intro y hy
      have := hl1 y hy
      simpa using this
    · rw [hok, hdecomp]
      exact updateFirst_decomp _ x l2 hl1 (by simp [hx])
    · rw [hok]
    · rw [hok]

/-- `purchase_ticket` fails (necessarily with `notFoundOrUnverified`)
exactly when no ledger ticket carries the requested id with `verified`
true. -/
theorem purchase_ticket_error_iff (s : AppState) (tid : Nat) (hex : String) :
    purchase_ticket s tid hex = .error .notFoundOrUnverified ↔
      ∀ t ∈ s.tickets_db, ¬(t.id = tid ∧ t.verified = true) := by
  unfold purchase_ticket
  cases hf : s.tickets_db.find? (fun t => t.id == tid && t.verified) with
  | none =>
    rw [List.find?_eq_none] at hf
    refine iff_of_true rfl ?_
    intro t ht hc
    exact hf t ht (by simp [hc.1, hc.2])
  | some x =>
    have hx := List.find?_some hf
    rw [Bool.and_eq_true] at hx
    have hmem : x ∈ s.tickets_db := List.mem_of_find?_eq_some hf
    refine iff_of_false (by simp) ?_
    intro hcontra
    exact hcontra x hmem ⟨by simpa using hx.1, hx.2⟩

/-- A successful `purchase_ticket` call, split at the purchased (first
matching verified) ticket: exactly that occurrence leaves the ledger, the
pending list and user store are untouched, and the fresh secure code is
`"SECURE-QR-"` + the environment-supplied hex. -/
theorem purchase_ticket_ok_decomp {s : AppState} {tid : Nat} {hex : String}
    {s' : AppState} {t : Ticket} {qr : String}
    (h : purchase_ticket s tid hex = .ok (s', t, qr)) :
    ∃ l1 l2, s.tickets_db = l1 ++ t :: l2 ∧
      (∀ y ∈ l1, ¬(y.id = tid ∧ y.verified = true)) ∧
      t.id = tid ∧ t.verified = true ∧
      s'.tickets_db = l1 ++ l2 ∧
      s'.pending_verifications = s.pending_verifications ∧
      s'.users_db = s.users_db ∧
      qr = "SECURE-QR-" ++ hex := by
  unfold purchase_ticket at h
  cases hf : s.tickets_db.find? (fun t => t.id == tid && t.verified) with
  | none => rw [hf] at h; cases h
  | some x =>
    rw [hf] at h
    injection h with h
    obtain ⟨hs', hx', hqr⟩ : { s with tickets_db := s.tickets_db.erase x } = s' ∧
        x = t ∧ "SECURE-QR-" ++ hex = qr := by
      refine ⟨congrArg Prod.fst h, ?_, ?_⟩
      · exact congrArg (fun p => p.2.1) h
      · exact congrArg (fun p => p.2.2) h
    subst hx'
    have hp := List.find?_some hf
    rw [Bool.and_eq_true] at hp
    obtain ⟨l1, l2, hdecomp, hl1⟩ := find?_decomp hf
    have hxid : x.id = tid := by simpa using hp.1
    have hnotmem : x ∉ l1 := by
      intro hmem
      have := hl1 x hmem
      simp [hp.1, hp.2] at this
    refine ⟨l1, l2, hdecomp, ?_, hxid, hp.2, ?_, ?_, ?_, hqr.symm⟩
    · intro y hy hc
      have := hl1 y hy
      simp [hc.1, hc.2] at this
    · rw [← hs', hdecomp]
      exact erase_decomp l2 hnotmem
    · rw [← hs']
    · rw [← hs']

/-- `register` fails (necessarily with `duplicateEmail`) exactly when the
email is already a key of the store. -/
theorem register_error_iff (hp : String → String) (s : AppState)
    (email full_name phone password role uuid : String) :
    register hp s email full_name phone password role uuid = .error .duplicateEmail ↔
      (lookupUser s.users_db email).isSome := by
  unfold register
  by_cases hc : (lookupUser s.users_db email).isSome
  · simp [hc]
  · simp [hc]

/-- A successful `register` call appends exactly one record, with the
supplied fields and the hashed password, and touches nothing else. -/
theorem register_ok_decomp {hp : String → String} {s : AppState}
    {email full_name phone password role uuid : String} {s' : AppState}
    (h : register hp s email full_name phone password role uuid = .ok s') :
    lookupUser s.users_db email = none ∧
      s' = { s with users_db :=
        s.users_db ++ [(email, ⟨email, full_name, phone, hp password, role, uuid⟩)] } := by
  unfold register at h
  by_cases hc : (lookupUser s.users_db email).isSome
  · rw [if_pos hc] at h; cases h
  · rw [if_neg hc] at h
    refine ⟨Option.not_isSome_iff_eq_none.1 hc, ?_⟩
    injection h with h
    exact h.symm

/-! ## Invariant preservation -/

/-- The empty process state satisfies the ledger invariants. -/
theorem ledgerInv_init : LedgerInv initState := by
  refine ⟨List.Pairwise.nil, ?_, ?_⟩ <;> intro t ht <;> exact absurd ht (List.not_mem_nil t)

/-- Serving any single request preserves the ledger invariants. -/
theorem ledgerInv_step (hp : String → String) (s : AppState) (op : Op) :
    LedgerInv s → LedgerInv (step hp s op) := by
  intro h
  unfold LedgerInv IdOnceVerified at h ⊢
  obtain ⟨h1, h2, h3⟩ := h
  cases op with
  | createOp inp hex now =>
    simp only [step, create_ticket]
    refine ⟨?_, ?_, ?_⟩
    · rw [List.pairwise_append]
      refine ⟨h1, List.pairwise_singleton _ _, ?_⟩
      intro a _ b hb
      rw [List.mem_singleton] at hb
      subst hb
      exact fun _ => rfl
    · intro t ht
      rcases List.mem_append.1 ht with ht | ht
      · exact h2 t ht
      · rw [List.mem_singleton] at ht
        subst ht
        exact ⟨rfl, rfl⟩
    · intro t ht
      rcases List.mem_append.1 ht with ht | ht
      · exact List.mem_append.2 (.inl (h3 t ht))
      · exact List.mem_append.2 (.inr ht)
  | verifyOp tid status now =>
    cases hv : verify_ticket s tid status now with
    | error e =>
      have hstep : step hp s (.verifyOp tid status now) = s := by simp [step, hv]
      rw [hstep]
      exact ⟨h1, h2, h3⟩
    | ok s' =>
      have hstep : step hp s (.verifyOp tid status now) = s' := by simp [step, hv]
      rw [hstep]
      obtain ⟨l1, x, l2, hdb, hl1, hx, hdb', hpend, -⟩ := verify_ticket_ok_decomp hv
      rw [hdb, List.pairwise_append, List.pairwise_cons] at h1
      obtain ⟨hP1, ⟨hxl2, hP2⟩, hcross⟩ := h1
      refine ⟨?_, ?_, ?_⟩
      · rw [hdb', List.pairwise_append, List.pairwise_cons]
        refine ⟨hP1, ⟨?_, hP2⟩, ?_⟩
        · intro b hb hid
          exact hxl2 b hb hid
        · intro a ha b hb
          rcases List.mem_cons.1 hb with rfl | hb
          · intro hid
            exact absurd (hid.trans hx) (by
              have := hl1 a ha
              simpa using this)
          · exact hcross a ha b (List.mem_cons_of_mem _ hb)
      · intro t ht
        rw [hpend] at ht
        exact h2 t (List.mem_filter.1 ht).1
      · intro t ht
        rw [hpend] at ht
        obtain ⟨htp, hne⟩ := List.mem_filter.1 ht
        have hne' : t.id ≠ tid := by simpa using hne
        have hin := h3 t htp
        rw [hdb] at hin
        rw [hdb']
        rcases List.mem_append.1 hin with hin | hin
        · exact List.mem_append.2 (.inl hin)
        · rcases List.mem_cons.1 hin with rfl | hin
          · exact absurd hx hne'
          · exact List.mem_append.2 (.inr (List.mem_cons_of_mem _ hin))
  | purchaseOp tid hex =>
    cases hv : purchase_ticket s tid hex with
    | error e =>
      have hstep : step hp s (.purchaseOp tid hex) = s := by simp [step, hv]
      rw [hstep]
      exact ⟨h1, h2, h3⟩
    | ok r =>
      obtain ⟨s', t, qr⟩ := r
      have hstep : step hp s (.purchaseOp tid hex) = s' := by simp [step, hv]
      rw [hstep]
      obtain ⟨l1, l2, hdb, hl1, htid, hver, hdb', hpend, -, -⟩ :=
        purchase_ticket_ok_decomp hv
      refine ⟨?_, ?_, ?_⟩
      · rw [hdb']
        rw [hdb] at h1
        exact List.Pairwise.sublist
          (List.Sublist.append_left (List.sublist_cons_self t l2) l1) h1
      · intro u hu
        rw [hpend] at hu
        exact h2 u hu
      · intro u hu
        rw [hpend] at hu
        have hin := h3 u hu
        rw [hdb] at hin
        rw [hdb']
        have hne : u ≠ t := by
          intro he
          have h2u := (h2 u hu).1
          rw [he, hver] at h2u
          cases h2u
        rcases List.mem_append.1 hin with hin | hin
        · exact List.mem_append.2 (.inl hin)
        · rcases List.mem_cons.1 hin with he | hin
          · exact absurd he hne
          · exact List.mem_append.2 (.inr hin)
  | registerOp e f ph pw r u =>
    cases hr : register hp s e f ph pw r u with
    | error er =>
      have hstep : step hp s (.registerOp e f ph pw r u) = s := by simp [step, hr]
      rw [hstep]
      exact ⟨h1, h2, h3⟩
    | ok s' =>
      have hstep : step hp s (.registerOp e f ph pw r u) = s' := by simp [step, hr]
      rw [hstep, (register_ok_decomp hr).2]
      exact ⟨h1, h2, h3⟩
  | loginOp e pw =>
    exact ⟨h1, h2, h3⟩

/-- Serving any request sequence preserves the ledger invariants. -/
theorem ledgerInv_run (hp : String → String) (ops : List Op) (s : AppState)
    (h : LedgerInv s) : LedgerInv (run hp s ops) := by
  induction ops generalizing s with
  | nil => exact h
  | cons op ops ih => exact ih _ (ledgerInv_step hp s op h)

/-- Every reachable state satisfies the ledger invariants. -/
theorem reachable_ledgerInv {hp : String → String} {s : AppState}
    (h : Reachable hp s) : LedgerInv s := by
  obtain ⟨ops, rfl⟩ := h
  exact ledgerInv_run hp ops initState ledgerInv_init

/-- The empty process state satisfies the QR-format invariant. -/
theorem qrInv_init : QRInv initState := by
  intro t ht
  exact absurd ht (List.not_mem_nil t)

/-- Serving a single request with well-formed hex inputs preserves the
QR-format invariant. -/
theorem qrInv_step (hp : String → String) (s : AppState) (op : Op)
    (hwf : WFOp op = true) : QRInv s → QRInv (step hp s op) := by
  intro h
  cases op with
  | createOp inp hex now =>
    intro t ht
    simp only [step, create_ticket] at ht
    rcases List.mem_append.1 ht with ht | ht
    · exact h t ht
    · rw [List.mem_singleton] at ht
      subst ht
      exact ⟨hex, by simpa [WFOp] using hwf, rfl⟩
  | verifyOp tid status now =>
    cases hv : verify_ticket s tid status now with
    | error e =>
      have hstep : step hp s (.verifyOp tid status now) = s := by simp [step, hv]
      rw [hstep]
      exact h
    | ok s' =>
      have hstep : step hp s (.verifyOp tid status now) = s' := by simp [step, hv]
      rw [hstep]
      obtain ⟨l1, x, l2, hdb, -, -, hdb', -, -⟩ := verify_ticket_ok_decomp hv
      intro t ht
      rw [hdb'] at ht
      rcases List.mem_append.1 ht with ht | ht
      · exact h t (by rw [hdb]; exact List.mem_append.2 (.inl ht))
      · rcases List.mem_cons.1 ht with rfl | ht
        · exact h x (by rw [hdb]; exact List.mem_append.2 (.inr (List.mem_cons_self x l2)))
        · exact h t (by rw [hdb]; exact List.mem_append.2 (.inr (List.mem_cons_of_mem _ ht)))
  | purchaseOp tid hex =>
    cases hv : purchase_ticket s tid hex with
    | error e =>
      have hstep : step hp s (.purchaseOp tid hex) = s := by simp [step, hv]
      rw [hstep]
      exact h
    | ok r =>
      obtain ⟨s', t, qr⟩ := r
      have hstep : step hp s (.purchaseOp tid hex) = s' := by simp [step, hv]
      rw [hstep]
      obtain ⟨l1, l2, hdb, -, -, -, hdb', -, -, -⟩ := purchase_ticket_ok_decomp hv
      intro u hu
      rw [hdb'] at hu
      rcases List.mem_append.1 hu with hu | hu
      · exact h u (by rw [hdb]; exact List.mem_append.2 (.inl hu))
      · exact h u (by rw [hdb]; exact List.mem_append.2 (.inr (List.mem_cons_of_mem _ hu)))
  | registerOp e f ph pw r u =>
    cases hr : register hp s e f ph pw r u with
    | error er =>
      have hstep : step hp s (.registerOp e f ph pw r u) = s := by simp [step, hr]
      rw [hstep]
      exact h
    | ok s' =>
      have hstep : step hp s (.registerOp e f ph pw r u) = s' := by simp [step, hr]
      rw [hstep, (register_ok_decomp hr).2]
      exact h
  | loginOp e pw => exact h

/-- Serving a well-formed request sequence preserves the QR-format
invariant. -/
theorem qrInv_run (hp : String → String) (ops : List Op) (s : AppState)
    (hwf : ∀ op ∈ ops, WFOp op = true) (h : QRInv s) : QRInv (run hp s ops) := by
  induction ops generalizing s with
  | nil => exact h
  | cons op ops ih =>
    exact ih _ (fun o ho => hwf o (List.mem_cons_of_mem _ ho))
      (qrInv_step hp s op (hwf op (List.mem_cons_self op ops)) h)

/-- Every state reachable through well-formed requests satisfies the
QR-format invariant. -/
theorem reachableWF_qrInv {hp : String → String} {s : AppState}
    (h : ReachableWF hp s) : QRInv s := by
  obtain ⟨ops, hwf, rfl⟩ := h
  exact qrInv_run hp ops initState hwf qrInv_init

/-- A state reachable through well-formed requests is reachable. -/
theorem reachableWF_reachable {hp : String → String} {s : AppState}
    (h : ReachableWF hp s) : Reachable hp s := by
  obtain ⟨ops, -, hrun⟩ := h
  exact ⟨ops, hrun⟩

/-! ## Absence of a verified ticket with a given id -/

/-- When no ledger ticket with id `k` is verified, purchasing `k` fails
with `notFoundOrUnverified`. -/
theorem purchase_error_of_noVerId {k : Nat} {s : AppState} (h : NoVerId k s)
    (hex : String) : purchase_ticket s k hex = .error .notFoundOrUnverified := by
  unfold purchase_ticket
  have hf : s.tickets_db.find? (fun t => t.id == k && t.verified) = none := by
    rw [List.find?_eq_none]
    intro t ht hc
    rw [Bool.and_eq_true] at hc
    have := h t ht (by simpa using hc.1)
    simp [this] at hc
  rw [hf]

/-- Deciding id `tid` with any status other than `"verified"` leaves no
verified ledger ticket with that id (the only possibly-verified one was
the first, and it has just been set unverified). -/
theorem noVerId_of_verify_reject {s : AppState} {tid : Nat} {status now : String}
    {s' : AppState} (h1 : IdOnceVerified s.tickets_db)
    (hst : (status == "verified") = false)
    (h : verify_ticket s tid status now = .ok s') : NoVerId tid s' := by
  obtain ⟨l1, x, l2, hdb, hl1, hx, hdb', -, -⟩ := verify_ticket_ok_decomp h
  rw [IdOnceVerified, hdb, List.pairwise_append, List.pairwise_cons] at h1
  obtain ⟨-, ⟨hxl2, -⟩, -⟩ := h1
  intro t ht hid
  rw [hdb'] at ht
  rcases List.mem_append.1 ht with ht | ht
  · exact absurd hid (hl1 t ht)
  · rcases List.mem_cons.1 ht with rfl | ht
    · simpa using hst
    · exact hxl2 t ht (hx.trans hid.symm)

/-- After a successful purchase of id `tid`, no verified ledger ticket
with that id remains (the purchased one was the only one). -/
theorem noVerId_of_purchase {s : AppState} {tid : Nat} {hex : String}
    {s' : AppState} {t : Ticket} {qr : String} (h1 : IdOnceVerified s.tickets_db)
    (h : purchase_ticket s tid hex = .ok (s', t, qr)) : NoVerId tid s' := by
  obtain ⟨l1, l2, hdb, hl1, htid, hver, hdb', -, -, -⟩ := purchase_ticket_ok_decomp h
  rw [IdOnceVerified, hdb, List.pairwise_append, List.pairwise_cons] at h1
  obtain ⟨-, ⟨htl2, -⟩, -⟩ := h1
  intro u hu hid
  rw [hdb'] at hu
  rcases List.mem_append.1 hu with hu | hu
  · cases hveru : u.verified with
    | false => rfl
    | true => exact absurd ⟨hid, hveru⟩ (hl1 u hu)
  · exact htl2 u hu (htid.trans hid.symm)

/-- Serving a request that does not decide id `k` cannot make a ledger
ticket with id `k` verified. -/
theorem noVerId_step (hp : String → String) (s : AppState) (op : Op) (k : Nat)
    (hop : op.decidesId k = false) : NoVerId k s → NoVerId k (step hp s op) := by
  intro h
  cases op with
  | createOp inp hex now =>
    intro t ht
    simp only [step, create_ticket] at ht
    rcases List.mem_append.1 ht with ht | ht
    · exact h t ht
    · rw [List.mem_singleton] at ht
      subst ht
      exact fun _ => rfl
  | verifyOp tid status now =>
    have htid : tid ≠ k := by simpa [Op.decidesId] using hop
    cases hv : verify_ticket s tid status now with
    | error e =>
      have hstep : step hp s (.verifyOp tid status now) = s := by simp [step, hv]
      rw [hstep]
      exact h
    | ok s' =>
      have hstep : step hp s (.verifyOp tid status now) = s' := by simp [step, hv]
      rw [hstep]
      obtain ⟨l1, x, l2, hdb, hl1, hx, hdb', -, -⟩ := verify_ticket_ok_decomp hv
      intro t ht hid
      rw [hdb'] at ht
      rcases List.mem_append.1 ht with ht | ht
      · exact h t (by rw [hdb]; exact List.mem_append.2 (.inl ht)) hid
      · rcases List.mem_cons.1 ht with rfl | ht
        · exact absurd (hx.symm.trans hid) htid
        · exact h t
            (by rw [hdb]; exact List.mem_append.2 (.inr (List.mem_cons_of_mem _ ht))) hid
  | purchaseOp tid hex =>
    cases hv : purchase_ticket s tid hex with
    | error e =>
      have hstep : step hp s (.purchaseOp tid hex) = s := by simp [step, hv]
      rw [hstep]
      exact h
    | ok r =>
      obtain ⟨s', t, qr⟩ := r
      have hstep : step hp s (.purchaseOp tid hex) = s' := by simp [step, hv]
      rw [hstep]
      obtain ⟨l1, l2, hdb, -, -, -, hdb', -, -, -⟩ := purchase_ticket_ok_decomp hv
      intro u hu
      rw [hdb'] at hu
      rcases List.mem_append.1 hu with hu | hu
      · exact h u (by rw [hdb]; exact List.mem_append.2 (.inl hu))
      · exact h u (by rw [hdb]; exact List.mem_append.2 (.inr (List.mem_cons_of_mem _ hu)))
  | registerOp e f ph pw r u =>
    cases hr : register hp s e f ph pw r u with
    | error er =>
      have hstep : step hp s (.registerOp e f ph pw r u) = s := by simp [step, hr]
      rw [hstep]
      exact h
    | ok s' =>
      have hstep : step hp s (.registerOp e f ph pw r u) = s' := by simp [step, hr]
      rw [hstep, (register_ok_decomp hr).2]
      exact h
  | loginOp e pw => exact h

/-- Serving a request sequence containing no decision on id `k` cannot
make a ledger ticket with id `k` verified. -/
theorem noVerId_run (hp : String → String) (ops : List Op) (s : AppState) (k : Nat)
    (hops : ∀ op ∈ ops, op.decidesId k = false) (h : NoVerId k s) :
    NoVerId k (run hp s ops) := by
  induction ops generalizing s with
  | nil => exact h
  | cons op ops ih =>
    exact ih _ (fun o ho => hops o (List.mem_cons_of_mem _ ho))
      (noVerId_step hp s op k (hops op (List.mem_cons_self op ops)) h)

/-! ## User store stability -/

/-- A first-match lookup that succeeds is unaffected by appending. -/
theorem lookupUser_append {db : List (String × UserRec)} {e : String} {u : UserRec}
    (h : lookupUser db e = some u) (l : List (String × UserRec)) :
    lookupUser (db ++ l) e = some u := by
  unfold lookupUser at h ⊢
  rw [List.find?_append]
  cases hf : List.find? (fun p => p.1 == e) db with
  | none => rw [hf] at h; simp at h
  | some p =>
    rw [hf] at h
    simpa [Option.or] using h

/-- Appending a record under a fresh email makes lookup of that email
find exactly it. -/
theorem lookupUser_append_new {db : List (String × UserRec)} {e : String}
    {rec : UserRec} (h : lookupUser db e = none) :
    lookupUser (db ++ [(e, rec)]) e = some rec := by
  unfold lookupUser at h ⊢
  rw [Option.map_eq_none'] at h
  rw [List.find?_append, h]
  simp [List.find?, Option.or]

/-- A single request either leaves the user store unchanged or appends
one record. -/
theorem users_step (hp : String → String) (s : AppState) (op : Op) :
    (step hp s op).users_db = s.users_db ∨
      ∃ p, (step hp s op).users_db = s.users_db ++ [p] := by
  cases op with
  | createOp inp hex now => exact .inl rfl
  | verifyOp tid status now =>
    cases hv : verify_ticket s tid status now with
    | error e => exact .inl (by simp [step, hv])
    | ok s' =>
      obtain ⟨-, -, -, -, -, -, -, -, hu⟩ := verify_ticket_ok_decomp hv
      exact .inl (by rw [show step hp s (.verifyOp tid status now) = s' by simp [step, hv], hu])
  | purchaseOp tid hex =>
    cases hv : purchase_ticket s tid hex with
    | error e => exact .inl (by simp [step, hv])
    | ok r =>
      obtain ⟨s', t, qr⟩ := r
      obtain ⟨-, -, -, -, -, -, -, -, hu, -⟩ := purchase_ticket_ok_decomp hv
      exact .inl (by rw [show step hp s (.purchaseOp tid hex) = s' by simp [step, hv], hu])
  | registerOp e f ph pw r u =>
    cases hr : register hp s e f ph pw r u with
    | error er => exact .inl (by simp [step, hr])
    | ok s' =>
      refine .inr ⟨(e, ⟨e, f, ph, hp pw, r, u⟩), ?_⟩
      rw [show step hp s (.registerOp e f ph pw r u) = s' by simp [step, hr],
        (register_ok_decomp hr).2]
  | loginOp e pw => exact .inl rfl

/-- A stored user record keeps being found across any single request. -/
theorem lookupUser_stable_step (hp : String → String) (s : AppState) (op : Op)
    {e : String} {u : UserRec} (h : lookupUser s.users_db e = some u) :
    lookupUser (step hp s op).users_db e = some u := by
  rcases users_step hp s op with heq | ⟨p, heq⟩
  · rw [heq]; exact h
  · rw [heq]; exact lookupUser_append h [p]

/-- A stored user record keeps being found across any request sequence. -/
theorem lookupUser_stable_run (hp : String → String) (ops : List Op) (s : AppState)
    {e : String} {u : UserRec} (h : lookupUser s.users_db e = some u) :
    lookupUser (run hp s ops).users_db e = some u := by
  induction ops generalizing s with
  | nil => exact h
  | cons op ops ih => exact ih _ (lookupUser_stable_step hp s op h)

/-! ## Claims -/

/-- C1: the spec asserts ledger ticket ids are pairwise distinct and
monotone in creation order, and that a ticket created after a purchase
never receives the id of a ticket still present. The code assigns
`id = len(tickets_db) + 1`, so on `traceCollide` (create, create,
verify 1, purchase 1, create) the third listing receives id 2 while the
second listing, also id 2, is still in the ledger: the ledger's id list
is `[2, 2]`, not pairwise distinct. -/
theorem ticket_ids_collide_after_purchase :
    ((run hpId initState traceCollide).tickets_db.map (fun t => t.id)) = [2, 2] ∧
    ¬ ((run hpId initState traceCollide).tickets_db.map (fun t => t.id)).Nodup :=
  ⟨by decide, by decide⟩

/-- C2 counterexample: the Rejected state is not terminal. On
`traceRevive` the single ticket is rejected and then decided again as
verified: it ends verified in the ledger and a purchase of it
succeeds. -/
theorem rejected_ticket_later_verified :
    ((run hpId initState traceRevive).tickets_db.map (fun t => (t.id, t.verified))) =
      [(1, true)] ∧
    (purchase_ticket (run hpId initState traceRevive) 1 "4A1B2C3D").isOk = true :=
  ⟨by decide, by decide⟩

/-- C2 (amended): after `decide(k, status)` with a non-"verified" status
in a reachable state, and as long as no further decide targets id `k`,
every ledger ticket with id `k` stays unverified, every purchase of id
`k` fails with `notFoundOrUnverified`, and the rejected ticket (whose
`verification_date` is stamped) never re-enters the pending queue — the
pending queue only ever holds tickets with no
`verification_date`. A later `decide(k, "verified")` does lift the
restriction, so Rejected is terminal only in this conditional sense. -/
theorem rejected_stays_unpurchasable (hp : String → String) (s : AppState)
    (hreach : Reachable hp s) (k : Nat) (status now : String) (s' : AppState)
    (hst : status ≠ "verified") (hok : verify_ticket s k status now = .ok s')
    (ops : List Op) (hops : ∀ op ∈ ops, op.decidesId k = false) :
    (∀ t ∈ (run hp s' ops).tickets_db, t.id = k → t.verified = false) ∧
    (∀ hex, purchase_ticket (run hp s' ops) k hex = .error .notFoundOrUnverified) ∧
    (∀ t ∈ (run hp s' ops).pending_verifications, t.verification_date = none) := by
  have hinv := reachable_ledgerInv hreach
  have hnv : NoVerId k s' :=
    noVerId_of_verify_reject hinv.1 (beq_eq_false_iff_ne.2 hst) hok
  have hnv' : NoVerId k (run hp s' ops) := noVerId_run hp ops s' k hops hnv
  have hreach' : Reachable hp (run hp s' ops) := by
    obtain ⟨ops0, hops0⟩ := hreach
    refine ⟨ops0 ++ ([.verifyOp k status now] ++ ops), ?_⟩
    rw [run_append, hops0, run_append]
    have hone : run hp s [Op.verifyOp k status now] = s' := by simp [run, step, hok]
    rw [hone]
  exact ⟨hnv', fun hex => purchase_error_of_noVerId hnv' hex,
    fun t ht => ((reachable_ledgerInv hreach').2.1 t ht).2⟩

/-- C2 witness: concretely, after creating a listing, rejecting it, and
creating another listing, purchasing id 1 fails. -/
theorem rejected_stays_unpurchasable_witness :
    purchase_ticket
      (run hpId (run hpId initState
        [.createOp inpA "0A1B2C3D" "T0", .verifyOp 1 "rejected" "T1"])
        [.createOp inpB "1A1B2C3D" "T2"]) 1 "4A1B2C3D" =
      .error .notFoundOrUnverified :=
  (rejected_stays_unpurchasable hpId
    (run hpId initState [.createOp inpA "0A1B2C3D" "T0"])
    ⟨[.createOp inpA "0A1B2C3D" "T0"], rfl⟩
    1 "rejected" "T1"
    (run hpId initState [.createOp inpA "0A1B2C3D" "T0", .verifyOp 1 "rejected" "T1"])
    (by decide)
    rfl
    [.createOp inpB "1A1B2C3D" "T2"]
    (by decide)).2.1 "4A1B2C3D"

/-- C3 counterexample: on `traceReuse`, the ledger holds a verified
ticket with id 2 and a pending unverified ticket also with id 2.
`purchase(2)` succeeds (even though an existing unverified ticket with
id 2 is present), after the purchase id 2 is still in `listPending()`,
and after one further decide a subsequent `purchase(2)` succeeds
again. -/
theorem purchase_leaves_reused_id_pending :
    (purchase_ticket (run hpId initState traceReuse) 2 "4A1B2C3D").isOk = true ∧
    ((run hpId initState (traceReuse ++ [.purchaseOp 2 "4A1B2C3D"])).pending_verifications.map
      (fun t => t.id)) = [2] ∧
    (purchase_ticket
      (run hpId initState
        (traceReuse ++ [.purchaseOp 2 "4A1B2C3D", .verifyOp 2 "verified" "T7"]))
      2 "5A1B2C3D").isOk = true :=
  ⟨by decide, by decide, by decide⟩

/-- C3 (amended): in a reachable state, `purchase(tid)` fails with
`notFoundOrUnverified` when no ledger ticket with that id is verified
(in particular whenever every ticket with the id is unverified); after a
successful `purchase(tid)`, and across every subsequent request sequence
containing no decide on that id, the id stays absent from
`listAvailable()` and every subsequent `purchase(tid)` fails — but the
id may remain in `listPending()` under a later ticket that reused it,
and an intervening decide on the id can make `purchase(tid)` succeed
again. -/
theorem purchase_postconditions (hp : String → String) (s : AppState)
    (hreach : Reachable hp s) (tid : Nat) (hex : String) :
    ((∀ u ∈ s.tickets_db, u.id = tid → u.verified = false) →
      purchase_ticket s tid hex = .error .notFoundOrUnverified) ∧
    (∀ s' t qr, purchase_ticket s tid hex = .ok (s', t, qr) →
      ∀ ops, (∀ op ∈ ops, op.decidesId tid = false) →
        (∀ u ∈ get_tickets (run hp s' ops), u.id ≠ tid) ∧
        (∀ hex2, purchase_ticket (run hp s' ops) tid hex2 =
          .error .notFoundOrUnverified)) := by
  have hinv := reachable_ledgerInv hreach
  constructor
  · intro hnone
    exact purchase_error_of_noVerId hnone hex
  · intro s' t qr hok ops hops
    have hnv : NoVerId tid s' := noVerId_of_purchase hinv.1 hok
    have hnv' : NoVerId tid (run hp s' ops) := noVerId_run hp ops s' tid hops hnv
    constructor
    · intro u hu hid
      have hu2 : u ∈ (run hp s' ops).tickets_db.filter (fun t => t.verified) := hu
      obtain ⟨humem, huver⟩ := List.mem_filter.1 hu2
      have huver' : u.verified = true := huver
      rw [hnv' u humem hid] at huver'
      exact Bool.noConfusion huver'
    · intro hex2
      exact purchase_error_of_noVerId hnv' hex2

/-- C3 witness: concretely, after creating a listing, verifying it,
purchasing it, and serving one further decide-free request, a purchase
of the same id still fails. -/
theorem purchase_postconditions_witness :
    purchase_ticket
      (run hpId (run hpId initState
        [.createOp inpA "0A1B2C3D" "T0", .verifyOp 1 "verified" "T1",
         .purchaseOp 1 "2A1B2C3D"])
        [.createOp inpB "1A1B2C3D" "T3"]) 1 "5A1B2C3D" =
      .error .notFoundOrUnverified :=
  ((purchase_postconditions hpId
    (run hpId initState [.createOp inpA "0A1B2C3D" "T0", .verifyOp 1 "verified" "T1"])
    ⟨[.createOp inpA "0A1B2C3D" "T0", .verifyOp 1 "verified" "T1"], rfl⟩
    1 "2A1B2C3D").2
    (run hpId initState
      [.createOp inpA "0A1B2C3D" "T0", .verifyOp 1 "verified" "T1",
       .purchaseOp 1 "2A1B2C3D"])
    { name := "Concert A", event_date := "2025-12-01", venue := "Arena",
      original_price := 100, resale_price := 80, seller_email := "s@x.com",
      qr_code := "QR-0A1B2C3D", id := 1, verified := true,
      verification_date := some "T1", created_at := "T0" }
    "SECURE-QR-2A1B2C3D" rfl
    [.createOp inpB "1A1B2C3D" "T3"] (by decide)).2 "5A1B2C3D"

/-- C4: `purchase(tid)` fails with `notFoundOrUnverified` iff no ledger
ticket with that id is verified; on success it removes exactly the first
matching (verified, id `tid`) entry, returns that ticket, and returns the
fresh code `"SECURE-QR-" ++ hex` — with the environment-supplied hex well
formed, of the documented format — distinct from the removed ticket's
listing QR code (which has the `"QR-"` + 8 shape in any state reached by
well-formed requests, hence a different length). -/
theorem purchase_contract (hp : String → String) (s : AppState)
    (hreach : ReachableWF hp s) (tid : Nat) (hex : String)
    (hhex : HexOK hex = true) :
    (purchase_ticket s tid hex = .error .notFoundOrUnverified ↔
      ∀ t ∈ s.tickets_db, ¬(t.id = tid ∧ t.verified = true)) ∧
    (∀ s' t qr, purchase_ticket s tid hex = .ok (s', t, qr) →
      ∃ l1 l2, s.tickets_db = l1 ++ t :: l2 ∧
        (∀ y ∈ l1, ¬(y.id = tid ∧ y.verified = true)) ∧
        t.id = tid ∧ t.verified = true ∧
        s'.tickets_db = l1 ++ l2 ∧
        s'.pending_verifications = s.pending_verifications ∧
        qr = "SECURE-QR-" ++ hex ∧
        qr ≠ t.qr_code) := by
  refine ⟨purchase_ticket_error_iff s tid hex, ?_⟩
  intro s' t qr hok
  obtain ⟨l1, l2, hdb, hl1, htid, hver, hdb', hpend, -, hqr⟩ :=
    purchase_ticket_ok_decomp hok
  refine ⟨l1, l2, hdb, hl1, htid, hver, hdb', hpend, hqr, ?_⟩
  have hqrinv := reachableWF_qrInv hreach
  have hmem : t ∈ s.tickets_db := by
    rw [hdb]
    exact List.mem_append.2 (.inr (List.mem_cons_self t l2))
  obtain ⟨h8, hh8, hqrc⟩ := hqrinv t hmem
  intro he
  have hlenhex : hex.length = 8 := by
    unfold HexOK at hhex
    rw [Bool.and_eq_true] at hhex
    simpa using hhex.1
  have hlen8 : h8.length = 8 := by
    unfold HexOK at hh8
    rw [Bool.and_eq_true] at hh8
    simpa using hh8.1
  have hcontra : ("SECURE-QR-" ++ hex).length = ("QR-" ++ h8).length := by
    rw [← hqr, he, hqrc]
  rw [String.length_append, String.length_append, hlenhex, hlen8] at hcontra
  exact absurd hcontra (by decide)

/-- C4 witness: concretely, purchasing the sole, still-unverified listing
fails with `notFoundOrUnverified`. -/
theorem purchase_contract_witness :
    purchase_ticket (run hpId initState [.createOp inpA "0A1B2C3D" "T0"]) 1 "2A1B2C3D" =
      .error .notFoundOrUnverified :=
  ((purchase_contract hpId (run hpId initState [.createOp inpA "0A1B2C3D" "T0"])
    ⟨[.createOp inpA "0A1B2C3D" "T0"], by decide, rfl⟩
    1 "2A1B2C3D" (by decide)).1).2 (by decide)

/-- C5: `decide(tid, status)` fails with `ticketNotFound` exactly when no
ledger ticket has the id; otherwise it rewrites the first ticket with the
id — setting `verified` to `status == "verified"` and stamping
`verification_date` — and unconditionally rebuilds the pending queue
without that id, a removal that is idempotent: when no pending ticket has
the id, the queue is returned unchanged and no error is raised. -/
theorem decide_contract (s : AppState) (tid : Nat) (status now : String) :
    (verify_ticket s tid status now = .error .ticketNotFound ↔
      ∀ t ∈ s.tickets_db, t.id ≠ tid) ∧
    (∀ s', verify_ticket s tid status now = .ok s' →
      (∃ l1 x l2, s.tickets_db = l1 ++ x :: l2 ∧ (∀ y ∈ l1, y.id ≠ tid) ∧ x.id = tid ∧
        s'.tickets_db = l1 ++
          { x with verified := (status == "verified"),
                   verification_date := some now } :: l2) ∧
      s'.pending_verifications = s.pending_verifications.filter (fun t => t.id != tid) ∧
      ((∀ t ∈ s.pending_verifications, t.id ≠ tid) →
        s'.pending_verifications = s.pending_verifications)) := by
  refine ⟨verify_ticket_error_iff s tid status now, ?_⟩
  intro s' hok
  obtain ⟨l1, x, l2, hdb, hl1, hx, hdb', hpend, -⟩ := verify_ticket_ok_decomp hok
  refine ⟨⟨l1, x, l2, hdb, hl1, hx, hdb'⟩, hpend, ?_⟩
  intro habs
  rw [hpend]
  exact List.filter_eq_self.2 (fun t ht => bne_iff_ne.2 (habs t ht))

/-- C5 witness: concretely, deciding the sole listing rebuilds the
pending queue by filtering out its id. -/
theorem decide_contract_witness :
    (run hpId initState
      [.createOp inpA "0A1B2C3D" "T0", .verifyOp 1 "verified" "T1"]).pending_verifications =
      (run hpId initState [.createOp inpA "0A1B2C3D" "T0"]).pending_verifications.filter
        (fun t => t.id != 1) :=
  ((decide_contract (run hpId initState [.createOp inpA "0A1B2C3D" "T0"]) 1 "verified"
    "T1").2
    (run hpId initState [.createOp inpA "0A1B2C3D" "T0", .verifyOp 1 "verified" "T1"])
    rfl).2.1

/-- C6 counterexample: on `traceDrop` the third listing was created and
never received a decide decision (`verified = false`, no
`verification_date`), yet `listPending()` is empty — deciding id 2
removed the undecided id-2 duplicate from the pending queue as well, so
`listPending()` is not exactly the created-but-undecided tickets. -/
theorem pending_misses_undecided_ticket :
    (run hpId initState traceDrop).pending_verifications = [] ∧
    ((run hpId initState traceDrop).tickets_db.map
      (fun t => (t.id, t.verified, t.verification_date))) =
      [(2, true, some "T5"), (2, false, none)] :=
  ⟨by decide, by decide⟩

/-- C6 (amended): in every reachable state `listAvailable()` is exactly
the ledger tickets with `verified` true in insertion order, and every
ticket in `listPending()` is an undecided ledger ticket (unverified, no
`verification_date`); after `decide(tid, "verified")` the id is absent
from `listPending()` and the decided ticket appears verified in
`listAvailable()`. The converse inclusion fails: a created, undecided
ticket can be missing from `listPending()` when a decide targeted its
(reused) id. -/
theorem listing_views (hp : String → String) (s : AppState) (hreach : Reachable hp s) :
    get_tickets s = s.tickets_db.filter (fun t => t.verified) ∧
    (∀ t ∈ get_pending_verifications s,
      t.verified = false ∧ t.verification_date = none ∧ t ∈ s.tickets_db) ∧
    (∀ tid now s', verify_ticket s tid "verified" now = .ok s' →
      (∀ u ∈ get_pending_verifications s', u.id ≠ tid) ∧
      ∃ u ∈ get_tickets s', u.id = tid ∧ u.verified = true) := by
  have hinv := reachable_ledgerInv hreach
  refine ⟨rfl, ?_, ?_⟩
  · intro t ht
    exact ⟨(hinv.2.1 t ht).1, (hinv.2.1 t ht).2, hinv.2.2 t ht⟩
  · intro tid now s' hok
    obtain ⟨l1, x, l2, hdb, hl1, hx, hdb', hpend, -⟩ := verify_ticket_ok_decomp hok
    constructor
    · intro u hu
      have hu2 : u ∈ s.pending_verifications.filter (fun t => t.id != tid) := by
        have hu' : u ∈ s'.pending_verifications := hu
        rw [hpend] at hu'
        exact hu'
      exact bne_iff_ne.1 (List.mem_filter.1 hu2).2
    · refine ⟨{ x with verified := ("verified" == "verified"),
                       verification_date := some now }, ?_, hx, rfl⟩
      have hmem : { x with verified := ("verified" == "verified"),
                           verification_date := some now } ∈ s'.tickets_db := by
        rw [hdb']
        exact List.mem_append.2 (.inr (List.mem_cons_self _ l2))
      exact List.mem_filter.2 ⟨hmem, rfl⟩

/-- C6 witness: concretely, `listAvailable()` of a one-listing state is
the ledger filtered on `verified`. -/
theorem listing_views_witness :
    get_tickets (run hpId initState [.createOp inpA "0A1B2C3D" "T0"]) =
      (run hpId initState [.createOp inpA "0A1B2C3D" "T0"]).tickets_db.filter
        (fun t => t.verified) :=
  (listing_views hpId (run hpId initState [.createOp inpA "0A1B2C3D" "T0"])
    ⟨[.createOp inpA "0A1B2C3D" "T0"], rfl⟩).1

/-- C7: registering an email a second time fails with `duplicateEmail`,
the failing request leaves the store unchanged, and the first
registration's record — full name, phone, hashed password, role, id —
is still found intact under the email. -/
theorem register_twice_duplicate (hp : String → String) (s : AppState)
    (e f1 ph1 pw1 r1 u1 : String) (s1 : AppState)
    (h1 : register hp s e f1 ph1 pw1 r1 u1 = .ok s1)
    (f2 ph2 pw2 r2 u2 : String) :
    register hp s1 e f2 ph2 pw2 r2 u2 = .error .duplicateEmail ∧
    step hp s1 (.registerOp e f2 ph2 pw2 r2 u2) = s1 ∧
    lookupUser s1.users_db e = some ⟨e, f1, ph1, hp pw1, r1, u1⟩ := by
  obtain ⟨hnone, hs1⟩ := register_ok_decomp h1
  have hlook : lookupUser s1.users_db e = some ⟨e, f1, ph1, hp pw1, r1, u1⟩ := by
    rw [hs1]
    exact lookupUser_append_new hnone
  have herr : register hp s1 e f2 ph2 pw2 r2 u2 = .error .duplicateEmail :=
    (register_error_iff hp s1 e f2 ph2 pw2 r2 u2).2 (by rw [hlook]; rfl)
  exact ⟨herr, by simp [step, herr], hlook⟩

/-- C7 witness: concretely, registering `a@x.com` twice fails the second
time with `duplicateEmail`. -/
theorem register_twice_duplicate_witness :
    register hpId (run hpId initState
      [.registerOp "a@x.com" "Ann" "0700" "pw" "buyer" "uid1"])
      "a@x.com" "Bob" "0711" "pw2" "seller" "uid2" = .error .duplicateEmail :=
  (register_twice_duplicate hpId initState "a@x.com" "Ann" "0700" "pw" "buyer" "uid1"
    (run hpId initState [.registerOp "a@x.com" "Ann" "0700" "pw" "buyer" "uid1"])
    rfl "Bob" "0711" "pw2" "seller" "uid2").1

/-- C8: `login` fails with `invalidCredentials` exactly when the email is
absent or the stored hash differs from the hash of the supplied password;
a login request has no effect on the state; and since the hash is a
function, registering with a password and later logging in with the same
password — after any further requests — succeeds and returns the stored
record. -/
theorem login_contract (hp : String → String) (s : AppState) (e pw : String) :
    (login hp s e pw = .error .invalidCredentials ↔
      lookupUser s.users_db e = none ∨
        ∃ u, lookupUser s.users_db e = some u ∧ u.password ≠ hp pw) ∧
    step hp s (.loginOp e pw) = s ∧
    (∀ f ph r uid s1, register hp s e f ph pw r uid = .ok s1 →
      ∀ ops, login hp (run hp s1 ops) e pw = .ok ⟨e, f, ph, hp pw, r, uid⟩) := by
  refine ⟨?_, rfl, ?_⟩
  · cases hl : lookupUser s.users_db e with
    | none =>
      have hlog : login hp s e pw = .error .invalidCredentials := by
        simp [login, hl]
      exact iff_of_true hlog (.inl rfl)
    | some u =>
      cases hb : u.password == hp pw with
      | true =>
        have hlog : login hp s e pw = .ok u := by
          simp [login, hl, hb]
        refine iff_of_false (by simp [hlog]) ?_
        intro hc
        rcases hc with hc | ⟨v, hv, hne⟩
        · exact Option.noConfusion hc
        · have huv : u = v := by injection hv
          exact hne (huv ▸ beq_iff_eq.1 hb)
      | false =>
        have hlog : login hp s e pw = .error .invalidCredentials := by
          simp [login, hl, hb]
        exact iff_of_true hlog (.inr ⟨u, rfl, beq_eq_false_iff_ne.1 hb⟩)
  · intro f ph r uid s1 hreg ops
    obtain ⟨hnone, hs1⟩ := register_ok_decomp hreg
    have hlook : lookupUser s1.users_db e = some ⟨e, f, ph, hp pw, r, uid⟩ := by
      rw [hs1]
      exact lookupUser_append_new hnone
    have hlook' := lookupUser_stable_run hp ops s1 hlook
    simp [login, hlook']

/-- C8 witness: concretely, after registering and a further unrelated
request, logging in with the registered password returns the stored
record. -/
theorem login_contract_witness :
    login hpId (run hpId (run hpId initState
      [.registerOp "a@x.com" "Ann" "0700" "pw" "buyer" "uid1"])
      [.createOp inpA "0A1B2C3D" "T0"]) "a@x.com" "pw" =
      .ok ⟨"a@x.com", "Ann", "0700", hpId "pw", "buyer", "uid1"⟩ :=
  (login_contract hpId initState "a@x.com" "pw").2.2 "Ann" "0700" "buyer" "uid1"
    (run hpId initState [.registerOp "a@x.com" "Ann" "0700" "pw" "buyer" "uid1"])
    rfl [.createOp inpA "0A1B2C3D" "T0"]

/-- C9: `stats()` returns, in every state, the ledger size, the number of
verified ledger tickets (the size of `listAvailable()`), the pending
queue length, and the number of registered users; in particular after one
listing decided verified, with no registrations and no purchase, it
returns `(1, 1, 0, 0)`. -/
theorem stats_contract (hp : String → String) (s : AppState) (inp : TicketInput)
    (hex n0 n1 : String) :
    get_stats s = (s.tickets_db.length, (get_tickets s).length,
      (get_pending_verifications s).length, s.users_db.length) ∧
    get_stats (run hp initState [.createOp inp hex n0, .verifyOp 1 "verified" n1]) =
      (1, 1, 0, 0) :=
  ⟨rfl, rfl⟩

/-- C10: `decide` validates nothing about the outcome string: for any
status other than `"verified"`, deciding an existing ticket succeeds,
sets its `verified` flag to `false`, stamps `verification_date`, and
removes the id from the pending queue — every non-`"verified"` outcome
behaves as a rejection. -/
theorem decide_any_status_rejects (s : AppState) (tid : Nat) (status now : String)
    (hst : status ≠ "verified") (hmem : ∃ t ∈ s.tickets_db, t.id = tid) :
    ∃ s', verify_ticket s tid status now = .ok s' ∧
      (∃ l1 x l2, s.tickets_db = l1 ++ x :: l2 ∧ (∀ y ∈ l1, y.id ≠ tid) ∧ x.id = tid ∧
        s'.tickets_db = l1 ++
          { x with verified := false, verification_date := some now } :: l2) ∧
      s'.pending_verifications = s.pending_verifications.filter (fun t => t.id != tid) := by
  cases hv : verify_ticket s tid status now with
  | error e =>
    exfalso
    unfold verify_ticket at hv
    cases hf : s.tickets_db.find? (fun t => t.id == tid) with
    | some x => rw [hf] at hv; cases hv
    | none =>
      rw [List.find?_eq_none] at hf
      obtain ⟨t, ht, htid⟩ := hmem
      exact hf t ht (by simp [htid])
  | ok s' =>
    obtain ⟨l1, x, l2, hdb, hl1, hx, hdb', hpend, -⟩ := verify_ticket_ok_decomp hv
    refine ⟨s', rfl, ⟨l1, x, l2, hdb, hl1, hx, ?_⟩, hpend⟩
    rw [hdb', beq_eq_false_iff_ne.2 hst]

/-- C10 witness: concretely, deciding the sole listing with the
unvalidated status `"banana"` succeeds. -/
theorem decide_any_status_rejects_witness :
    (verify_ticket (run hpId initState [.createOp inpA "0A1B2C3D" "T0"]) 1 "banana"
      "T1").isOk = true := by
  obtain ⟨s', hok, -, -⟩ := decide_any_status_rejects
    (run hpId initState [.createOp inpA "0A1B2C3D" "T0"]) 1 "banana" "T1"
    (by decide) (by decide)
  rw [hok]
  rfl

end Quipd
